import Mathlib

/-!
Shallow embedding of the rainbow-road crawler (src/main.rs): the chapter
walker `parse_chapters`, the archive-writer drain loop, and the per-fiction
loop of `main`, together with the URL / regex helpers they rely on.
Strings are modelled as `List Char`, byte sequences as `List Nat`.
-/

/-- ASCII fragment of the Unicode White_Space class used by Rust's
`str::trim` (all whitespace code points are listed explicitly). -/
def rustIsWhitespace (c : Char) : Bool :=
  let n := c.toNat
  (0x9 ≤ n && n ≤ 0xD) || n = 0x20 || n = 0x85 || n = 0xA0 || n = 0x1680 ||
  (0x2000 ≤ n && n ≤ 0x200A) || n = 0x2028 || n = 0x2029 || n = 0x202F ||
  n = 0x205F || n = 0x3000

/-- Character-wise model of Rust's `str::to_lowercase` (the ASCII fragment;
every string the claims mention is ASCII). -/
def rustToLower (c : Char) : Char := c.toLower

/-- Model of Rust's `str::trim`: strip whitespace from both ends. -/
def rustTrim (l : List Char) : List Char :=
  ((l.dropWhile rustIsWhitespace).reverse.dropWhile rustIsWhitespace).reverse

/-- UTF-8 encoding of one scalar value (what `String::into_bytes` emits
per character). -/
def utf8Bytes (c : Char) : List Nat :=
  let n := c.toNat
  if n < 0x80 then [n]
  else if n < 0x800 then [0xC0 + n / 0x40, 0x80 + n % 0x40]
  else if n < 0x10000 then [0xE0 + n / 0x1000, 0x80 + n / 0x40 % 0x40, 0x80 + n % 0x40]
  else [0xF0 + n / 0x40000, 0x80 + n / 0x1000 % 0x40, 0x80 + n / 0x40 % 0x40, 0x80 + n % 0x40]

/-- UTF-8 encoding of a string, as `String::into_bytes` produces it. -/
def utf8Encode (s : List Char) : List Nat := (s.map utf8Bytes).flatten

/-- Model of Rust's slice `join`: interleave a separator between the
elements and concatenate. -/
def joinSep {α : Type} (sep : List α) : List (List α) → List α
  | [] => []
  | [x] => x
  | x :: y :: t => x ++ sep ++ joinSep sep (y :: t)

/-- ASCII fragment of the regex class d. The regex crate's default d is
Unicode Nd; the only Nd code points below 128 are the digits 0-9, so on
ASCII code points this function coincides exactly with the crate's class.
The regex theorems therefore restrict their URLs to ASCII characters. -/
def isAsciiDigit (c : Char) : Bool := c.isDigit

/-- ASCII fragment of the regex word class w. The crate default is the
Unicode word class (alphabetic, marks, decimal digits, connector
punctuation, join controls); the only such code points below 128 are the
letters, the digits and the underscore, so on ASCII code points this
function coincides exactly with the crate's class. -/
def isWordChar (c : Char) : Bool := c.isAlphanum || c = '_'

/-- Characters admitted by the capture group of the fiction-name regex:
word characters and the hyphen (the ASCII fragment, see isWordChar). -/
def isSlugChar (c : Char) : Bool := isWordChar c || c = '-'

/-- True when every character of the string is an ASCII code point: the
domain on which the modelled character classes agree with the regex
crate's Unicode classes, and to which the regex theorems are limited. -/
def allAscii (l : List Char) : Bool := l.all fun c => c.toNat < 128

/-- Literal part of the regex in `main`: the characters of /fiction/ . -/
def fictionLit : List Char := "/fiction/".toList

/-- Match a literal against the head of a list, returning the rest on
success (building block of the regex model). -/
def dropLit : List Char → List Char → Option (List Char)
  | [], l => some l
  | _ :: _, [] => none
  | p :: ps, c :: cs => if c = p then dropLit ps cs else none

/-- Attempt of the regex /fiction/ digits / capture at the current
position: the literal, one or more digits, a slash, then the greedy
nonempty capture of slug characters. -/
def matchFictionHere (l : List Char) : Option (List Char) :=
  match dropLit fictionLit l with
  | none => none
  | some l1 =>
    let ds := l1.takeWhile isAsciiDigit
    if ds = [] then none
    else
      match l1.dropWhile isAsciiDigit with
      | '/' :: l2 =>
        let ss := l2.takeWhile isSlugChar
        if ss = [] then none else some ss
      | _ => none

/-- Leftmost search of the fiction-name regex over the whole string:
model of `Regex::captures` followed by `get(1)` in `main`. -/
def guessFictionName : List Char → Option (List Char)
  | [] => none
  | c :: rest =>
    match matchFictionHere (c :: rest) with
    | some s => some s
    | none => guessFictionName rest

/-- Model of a parsed `reqwest::Url`: its scheme, its serialized path and
the cannot-be-a-base flag the `url` crate tracks. -/
structure Url where
  scheme : List Char
  path : List Char
  cannotBeABase : Bool
deriving DecidableEq

/-- Split a path remainder on the slash character, the way the `url`
crate's `path_segments` iterator does. -/
def splitSegs : List Char → List (List Char)
  | [] => [[]]
  | c :: rest =>
    if c = '/' then [] :: splitSegs rest
    else
      match splitSegs rest with
      | [] => [[c]]
      | s :: ss => (c :: s) :: ss

/-- Model of `Url::path_segments`: `none` exactly when the URL cannot be a
base; otherwise the path after its leading slash, split on slashes. -/
def pathSegments (u : Url) : Option (List (List Char)) :=
  if u.cannotBeABase then none else some (splitSegs (u.path.drop 1))

/-- Errors that abort the walk of `parse_chapters`: the bail on a missing
name, a fetch/decode failure, or a failing relative-URL join. -/
inductive WalkError
  | missingChapterName
  | fetchError
  | joinError
deriving DecidableEq

/-- Chapter-name derivation at the top of `parse_chapters`:
`url.path_segments().and_then(|segments| segments.last())`, bailing when
that is `None`. -/
def chapterNameOf (u : Url) : Except WalkError (List Char) :=
  match pathSegments u with
  | none => .error .missingChapterName
  | some segs =>
    match segs.getLast? with
    | none => .error .missingChapterName
    | some s => .ok s

/-- Fixed suffix appended to a chapter name before the relay handoff. -/
def chapterFileName (n : List Char) : List Char := n ++ ".txt".toList

/-- Candidate navigation element matched by the button selector: its
collected text and its optional href attribute. -/
structure Button where
  text : List Char
  href : Option (List Char)
deriving DecidableEq

/-- Markup of one fetched page, as the selectors see it: the paragraph
elements in document order (each a list of its text nodes, in order) and
the candidate navigation buttons in document order. -/
structure Page where
  paragraphs : List (List (List Char))
  buttons : List Button

/-- External collaborators of the walker: the HTTP fetch (returning the
parsed page or failing), relative-URL resolution (`Url::join`, which can
fail), and `Url::parse` for the initial chapter string. -/
structure World where
  fetch : Url → Option Page
  join : Url → List Char → Option Url
  parseUrl : List Char → Option Url

/-- Text of one paragraph element: its text nodes joined, as
`ele.text().map(to_string).collect().join(empty)` computes it. -/
def paragraphText (p : List (List Char)) : List Char := p.flatten

/-- Separator the walker puts between paragraph texts: one blank line. -/
def blankLine : List Char := ['\n', '\n']

/-- Model of the `chapter_contents` computation in `parse_chapters`: the
texts of all paragraph elements, joined by a blank line. -/
def pageContents (pg : Page) : List Char :=
  joinSep blankLine (pg.paragraphs.map paragraphText)

/-- Literal the walker compares normalized button texts against. -/
def nextChapterLit : List Char := "next chapter".toList

/-- Normalization applied to a candidate button text in `parse_chapters`:
lowercase the collected text, then trim it. -/
def normalizeButtonText (t : List Char) : List Char := rustTrim (t.map rustToLower)

/-- Predicate of the `find` call in `parse_chapters`: the button's
normalized text equals exactly the next-chapter literal. -/
def isNextChapterButton (b : Button) : Bool := normalizeButtonText b.text = nextChapterLit

/-- Model of `next_button_link`: the first candidate whose normalized text
matches, and then only its href attribute, if present. -/
def nextButtonHref (pg : Page) : Option (List Char) :=
  (pg.buttons.find? isNextChapterButton).bind Button.href

/-- Outcome of one spawned relay-handoff task: the broadcast `send`
succeeded, or its `unwrap` panicked inside the detached task. -/
inductive TaskOutcome
  | delivered
  | panicked
deriving DecidableEq

/-- Model of `broadcast::Sender::send`: it errs exactly when the channel
has no active receiver. -/
def broadcastSend (receivers : Nat) : Except Unit Unit :=
  if receivers = 0 then .error () else .ok ()

/-- Outcome of the spawned handoff task `sender.send(..).unwrap()`: a send
error panics the detached task, whose join handle is dropped. -/
def handoffTaskOutcome (receivers : Nat) : TaskOutcome :=
  match broadcastSend receivers with
  | .ok _ => .delivered
  | .error _ => .panicked

/-- Result of the walk: outcome of the final recursive call plus the
walker's observable effects. -/
inductive WalkOutcome
  | ok
  | err (e : WalkError)
  | outOfFuel
deriving DecidableEq

/-- Observable behaviour of one `parse_chapters` walk: number of fetches
performed, the chapters handed to the relay in order (name with suffix,
UTF-8 content bytes), the outcomes of the spawned handoff tasks, and the
returned result. -/
structure WalkResult where
  fetches : Nat
  handoffs : List (List Char × List Nat)
  tasks : List TaskOutcome
  outcome : WalkOutcome
deriving DecidableEq

/-- Model of `parse_chapters` in src/main.rs: derive the chapter name from
the URL (bail if absent), fetch the page, extract the contents, look for
the first next-chapter button; if it has an href, spawn the handoff of the
current chapter and recurse on the joined URL (a join failure propagates
after the handoff was already spawned); otherwise return success without
handing off the final chapter. Recursion is bounded by explicit fuel. -/
def parse_chapters (receivers : Nat) (w : World) : Nat → Url → WalkResult
  | 0, _ => ⟨0, [], [], .outOfFuel⟩
  | fuel + 1, url =>
    match chapterNameOf url with
    | .error e => ⟨0, [], [], .err e⟩
    | .ok chapterName =>
      match w.fetch url with
      | none => ⟨1, [], [], .err .fetchError⟩
      | some document =>
        let chapterContents := pageContents document
        match nextButtonHref document with
        | none => ⟨1, [], [], .ok⟩
        | some nextChapter =>
          match w.join url nextChapter with
          | none =>
            ⟨1, [(chapterFileName chapterName, utf8Encode chapterContents)],
             [handoffTaskOutcome receivers], .err .joinError⟩
          | some nextUrl =>
            let rest := parse_chapters receivers w fuel nextUrl
            ⟨rest.fetches + 1,
             (chapterFileName chapterName, utf8Encode chapterContents) :: rest.handoffs,
             handoffTaskOutcome receivers :: rest.tasks,
             rest.outcome⟩

/-- Outcomes of `receiver.recv()` that the drain loop can observe before
the channel closes: an item, or a lag notification. Exhausting the event
list models the channel-closed signal. -/
inductive RecvEvent
  | item (name : List Char) (contents : List Nat) (appendOk : Bool)
  | lagged (skipped : Nat)
deriving DecidableEq

/-- Side effects of the archive-writer block, in order: an appended entry
(name, declared size, permission mode, raw bytes) or one of the shutdown
steps after the loop. -/
inductive WriterAction
  | appendEntry (name : List Char) (size : Nat) (mode : Nat) (contents : List Nat)
  | finalizeContainer
  | finalizeCompressor
  | flushBufWriter
  | flushFile
  | syncFile
deriving DecidableEq

/-- How the drain loop was left: the break on a closed channel, or the
early return of a failing `append_data`. -/
inductive DrainExit
  | channelClosed
  | appendFailed
deriving DecidableEq

/-- Model of the writer's drain loop: a lag notification continues, an
item is appended with declared size equal to its byte length and fixed
mode 0o777, a failing append returns at once, and a closed channel (the
exhausted event list) breaks out of the loop. -/
def drainLoop : List RecvEvent → List WriterAction × DrainExit
  | [] => ([], .channelClosed)
  | .lagged _ :: rest => drainLoop rest
  | .item name contents ok :: rest =>
    if ok then
      let r := drainLoop rest
      (.appendEntry name contents.length 0o777 contents :: r.1, r.2)
    else ([], .appendFailed)

/-- Failure of the archive-writer block. -/
inductive ArchiveError
  | appendFailed
deriving DecidableEq

/-- Shutdown steps after the loop, in source order: finalize the tar
builder, shut down the Brotli encoder, flush the buffered writer, flush
the file, sync the file. -/
def shutdownSeq : List WriterAction :=
  [.finalizeContainer, .finalizeCompressor, .flushBufWriter, .flushFile, .syncFile]

/-- Model of the whole archive-writer async block: run the drain loop; on
the break path perform the shutdown sequence and return Ok, on the
early-return path propagate the append error without any shutdown step. -/
def archiveWriter (events : List RecvEvent) : List WriterAction × Except ArchiveError Unit :=
  match drainLoop events with
  | (acts, .channelClosed) => (acts ++ shutdownSeq, .ok ())
  | (acts, .appendFailed) => (acts, .error .appendFailed)

/-- True when every item event in the stream appends successfully. -/
def appendsOk : List RecvEvent → Bool
  | [] => true
  | .item _ _ ok :: rest => ok && appendsOk rest
  | .lagged _ :: rest => appendsOk rest

/-- Entries appended by a writer trace, with their header fields. -/
def appendedEntries (acts : List WriterAction) : List (List Char × Nat × Nat × List Nat) :=
  acts.filterMap fun a =>
    match a with
    | .appendEntry n sz m b => some (n, sz, m, b)
    | _ => none

/-- Item payloads of an event stream, in order. -/
def relayedItems (es : List RecvEvent) : List (List Char × List Nat) :=
  es.filterMap fun e =>
    match e with
    | .item n b _ => some (n, b)
    | _ => none

/-- Per-run failures surfaced by `main`. -/
inductive RunError
  | invalidRunTarget
  | urlParseError
  | walkFailure (e : WalkError)
  | walkOutOfFuel
  | archiveFailure (e : ArchiveError)
deriving DecidableEq

/-- Setup and walker side of one iteration of the loop in `main`: bail
with the invalid-run-target error when the regex captures nothing (before
the URL is even parsed, so before any fetch), then parse the URL and run
the walker. Returns the run result and the number of fetches performed. -/
def runOne (w : World) (receivers fuel : Nat) (initial : List Char) :
    Except RunError Unit × Nat :=
  match guessFictionName initial with
  | none => (.error .invalidRunTarget, 0)
  | some _ =>
    match w.parseUrl initial with
    | none => (.error .urlParseError, 0)
    | some url =>
      let res := parse_chapters receivers w fuel url
      (match res.outcome with
       | .ok => .ok ()
       | .err e => .error (.walkFailure e)
       | .outOfFuel => .error .walkOutOfFuel, res.fetches)

/-- One iteration of the per-fiction loop in `main`: the regex bail, then
the rest of the iteration (URL parse, the joined walker/writer pair and
the two question-mark propagations), abstracted as `runBody`. -/
def runIteration (runBody : List Char → Except RunError Unit) (initial : List Char) :
    Except RunError Unit :=
  match guessFictionName initial with
  | none => .error .invalidRunTarget
  | some _ => runBody initial

/-- Model of the `for initial_chapter in args.initial_chapter` loop in
`main`: each iteration propagates its failure out of `main` immediately.
Returns the list of initial chapters whose run was attempted, and the
overall process result. -/
def processChapters (runBody : List Char → Except RunError Unit) :
    List (List Char) → List (List Char) × Except RunError Unit
  | [] => ([], .ok ())
  | c :: rest =>
    match runIteration runBody c with
    | .error e => ([c], .error e)
    | .ok _ =>
      let r := processChapters runBody rest
      (c :: r.1, r.2)

/-- Unary path used by the simulated pagination chain: page k has path
slash followed by k+1 copies of the letter a. -/
def aRun (n : Nat) : List Char := List.replicate n 'a'

/-- URL of page k of the simulated chain. -/
def chainUrl (k : Nat) : Url := ⟨"https".toList, '/' :: aRun (k + 1), false⟩

/-- Decode a unary chain path body: all letters a, counted. -/
def unaryDecode : List Char → Option Nat
  | [] => some 0
  | c :: rest => if c = 'a' then (unaryDecode rest).map (· + 1) else none

/-- Index of a chain URL, when it is one. -/
def urlIndex (u : Url) : Option Nat :=
  match u.path with
  | '/' :: cs =>
    match unaryDecode cs with
    | some (j + 1) => some j
    | _ => none
  | _ => none

/-- Page k of a simulated chain of length N: pages before the last carry a
single navigation button whose text is exactly the matching one and whose
href leads to page k+1; the last page has no button. -/
def chainPage (N k : Nat) : Page :=
  if k + 1 < N then ⟨[], [⟨"Next Chapter ".toList, some ('/' :: aRun (k + 2))⟩]⟩
  else ⟨[], []⟩

/-- Simulated world of an N-page pagination chain: fetching page k
succeeds for k < N, and join resolves the (absolute-path) href directly. -/
def chainWorld (N : Nat) : World where
  fetch u :=
    match urlIndex u with
    | some k => if k < N then some (chainPage N k) else none
    | none => none
  join _ h := some ⟨"https".toList, h, false⟩
  parseUrl _ := none

/-- Decomposition of a URL string witnessing that it matches the spec
pattern /fiction/<id>/<slug> with capture s: some prefix, the literal, a
nonempty digit id, a slash, the nonempty slug, and a remainder. On ASCII
strings (the domain of the regex theorems) the character classes coincide
with the regex crate's, so this is exactly a match of the real pattern. -/
def FictionDecomp (u s : List Char) : Prop :=
  ∃ p d r, u = p ++ fictionLit ++ (d ++ '/' :: (s ++ r)) ∧ d ≠ [] ∧
    (∀ c ∈ d, isAsciiDigit c = true) ∧ s ≠ [] ∧ (∀ c ∈ s, isSlugChar c = true)

theorem dropLit_self (lit t : List Char) : dropLit lit (lit ++ t) = some t := by
  induction lit with
  | nil => rfl
  | cons c cs ih => simp [dropLit, ih]

theorem dropLit_eq_append : ∀ {lit l t : List Char}, dropLit lit l = some t → l = lit ++ t
  | [], l, t, h => by simpa [dropLit] using h
  | c :: cs, [], t, h => by simp [dropLit] at h
  | c :: cs, a :: as, t, h => by
    simp only [dropLit] at h
    split at h
    · next hac => simp [hac, dropLit_eq_append h]
    · exact absurd h (by simp)

theorem takeWhile_all_append {α : Type} (p : α → Bool) : ∀ (l r : List α),
    (∀ c ∈ l, p c = true) → (∀ c, r.head? = some c → p c = false) →
    (l ++ r).takeWhile p = l ∧ (l ++ r).dropWhile p = r
  | [], r, _, hr => by
    cases r with
    | nil => simp
    | cons a as =>
      have ha := hr a rfl
      simp [List.takeWhile_cons, List.dropWhile_cons, ha]
  | c :: l, r, hl, hr => by
    have hc := hl c (by simp)
    have ih := takeWhile_all_append p l r (fun x hx => hl x (by simp [hx])) hr
    simp [List.takeWhile_cons, List.dropWhile_cons, hc, ih.1, ih.2]

theorem matchFictionHere_target (d s r : List Char)
    (hd : d ≠ []) (hdall : ∀ c ∈ d, isAsciiDigit c = true)
    (hs : s ≠ []) (hsall : ∀ c ∈ s, isSlugChar c = true)
    (hr : ∀ c, r.head? = some c → isSlugChar c = false) :
    matchFictionHere (fictionLit ++ (d ++ '/' :: (s ++ r))) = some s := by
  have h1 := dropLit_self fictionLit (d ++ '/' :: (s ++ r))
  have hdw := takeWhile_all_append isAsciiDigit d ('/' :: (s ++ r)) hdall
    (by intro c hc; simp at hc; subst hc; decide)
  have hsw := takeWhile_all_append isSlugChar s r hsall hr
  simp only [matchFictionHere, h1, hdw.1, hdw.2, hd, if_neg hd]
  simp [hsw.1, hsw.2, hs]

theorem guessFictionName_skip : ∀ (p T : List Char),
    (∀ i, i < p.length → matchFictionHere (p.drop i ++ T) = none) →
    guessFictionName (p ++ T) = guessFictionName T
  | [], _, _ => rfl
  | c :: p, T, h => by
    have h0 : matchFictionHere (c :: (p ++ T)) = none := by
      have h1 := h 0 (by simp)
      simpa using h1
    have hrest : ∀ i, i < p.length → matchFictionHere (p.drop i ++ T) = none := by
      intro i hi
      have h1 := h (i + 1) (by simpa using Nat.succ_lt_succ hi)
      simpa using h1
    rw [List.cons_append, guessFictionName, h0]
    exact guessFictionName_skip p T hrest

theorem matchFictionHere_decomp {l s : List Char} (h : matchFictionHere l = some s) :
    ∃ d r, l = fictionLit ++ (d ++ '/' :: (s ++ r)) ∧ d ≠ [] ∧
      (∀ c ∈ d, isAsciiDigit c = true) ∧ s ≠ [] ∧ (∀ c ∈ s, isSlugChar c = true) := by
  unfold matchFictionHere at h
  cases hdl : dropLit fictionLit l with
  | none => rw [hdl] at h; exact absurd h (by simp)
  | some l1 =>
    rw [hdl] at h
    simp only at h
    split at h
    · exact absurd h (by simp)
    · next hds =>
      split at h
      · next l2 hdw =>
        split at h
        · exact absurd h (by simp)
        · next hss =>
          have hs : l2.takeWhile isSlugChar = s := by
            simpa using h
          refine ⟨l1.takeWhile isAsciiDigit, l2.dropWhile isSlugChar,
            ?_, hds, ?_, ?_, ?_⟩
          · have h2 : l1.takeWhile isAsciiDigit ++ l1.dropWhile isAsciiDigit = l1 :=
              List.takeWhile_append_dropWhile _ _
            have h3 : l2.takeWhile isSlugChar ++ l2.dropWhile isSlugChar = l2 :=
              List.takeWhile_append_dropWhile _ _
            rw [← hs, h3, ← hdw, h2]
            exact dropLit_eq_append hdl
          · intro c hc; exact List.mem_takeWhile_imp hc
          · rw [← hs]; exact hss
          · intro c hc; rw [← hs] at hc; exact List.mem_takeWhile_imp hc
      · exact absurd h (by simp)

theorem guessFictionName_decomp : ∀ {u s : List Char},
    guessFictionName u = some s → FictionDecomp u s
  | [], s, h => by simp [guessFictionName] at h
  | c :: rest, s, h => by
    rw [guessFictionName] at h
    cases hm : matchFictionHere (c :: rest) with
    | some t =>
      rw [hm] at h
      have hts : t = s := by simpa using h
      subst hts
      obtain ⟨d, r, heq, hd, hdall, hs, hsall⟩ := matchFictionHere_decomp hm
      exact ⟨[], d, r, by simpa using heq, hd, hdall, hs, hsall⟩
    | none =>
      rw [hm] at h
      simp only at h
      obtain ⟨p, d, r, heq, hd, hdall, hs, hsall⟩ := guessFictionName_decomp h
      exact ⟨c :: p, d, r, by simp [heq], hd, hdall, hs, hsall⟩

theorem splitSegs_ne_nil : ∀ l : List Char, splitSegs l ≠ []
  | [] => by simp [splitSegs]
  | c :: rest => by
    simp only [splitSegs]
    split
    · simp
    · split <;> simp

theorem splitSegs_concat_slash : ∀ l : List Char,
    splitSegs (l ++ ['/']) = splitSegs l ++ [[]]
  | [] => by simp [splitSegs]
  | c :: rest => by
    by_cases hc : c = '/'
    · simp [splitSegs, hc, splitSegs_concat_slash rest]
    · have ih := splitSegs_concat_slash rest
      cases hrest : splitSegs rest with
      | nil => exact absurd hrest (splitSegs_ne_nil rest)
      | cons s ss => simp [splitSegs, hc, ih, hrest]

theorem splitSegs_no_slash : ∀ l : List Char, '/' ∉ l → splitSegs l = [l]
  | [], _ => rfl
  | c :: rest, h => by
    have hc : ¬ c = '/' := fun hf => h (by simp [hf])
    simp [splitSegs, hc, splitSegs_no_slash rest (fun hf => h (by simp [hf]))]

theorem unaryDecode_aRun : ∀ n : Nat, unaryDecode (aRun n) = some n
  | 0 => rfl
  | n + 1 => by
    have ih := unaryDecode_aRun n
    simp only [aRun] at ih
    simp [aRun, List.replicate_succ, unaryDecode, ih]

theorem urlIndex_chainUrl (k : Nat) : urlIndex (chainUrl k) = some k := by
  simp [urlIndex, chainUrl, unaryDecode_aRun (k + 1)]

theorem chapterNameOf_chainUrl (k : Nat) :
    chapterNameOf (chainUrl k) = .ok (aRun (k + 1)) := by
  have h1 : '/' ∉ aRun (k + 1) := by
    intro hmem
    have := List.eq_of_mem_replicate hmem
    simp at this
  simp [chapterNameOf, pathSegments, chainUrl, splitSegs_no_slash _ h1]

theorem utf8Encode_append (a b : List Char) :
    utf8Encode (a ++ b) = utf8Encode a ++ utf8Encode b := by
  simp [utf8Encode]

theorem utf8Encode_joinSep (sep : List Char) : ∀ xs : List (List Char),
    utf8Encode (joinSep sep xs) = joinSep (utf8Encode sep) (xs.map utf8Encode)
  | [] => by simp [joinSep, utf8Encode]
  | [x] => by simp [joinSep]
  | x :: y :: t => by
    simp [joinSep, utf8Encode_append, utf8Encode_joinSep sep (y :: t)]

theorem find?_eq_some_split {α : Type} (p : α → Bool) : ∀ (l : List α) (b : α),
    l.find? p = some b ↔
      ∃ l1 l2, l = l1 ++ b :: l2 ∧ p b = true ∧ ∀ x ∈ l1, p x = false
  | [], b => by
    constructor
    · intro h; simp at h
    · rintro ⟨l1, l2, heq, -, -⟩
      exact absurd heq (by simp)
  | a :: l, b => by
    by_cases ha : p a = true
    · rw [List.find?_cons_of_pos _ ha]
      constructor
      · intro h
        have hab : a = b := by simpa using h
        subst hab
        exact ⟨[], l, rfl, ha, by simp⟩
      · rintro ⟨l1, l2, heq, hb, hl1⟩
        cases l1 with
        | nil =>
          simp only [List.nil_append, List.cons.injEq] at heq
          simp [heq.1]
        | cons x l1 =>
          simp only [List.cons_append, List.cons.injEq] at heq
          have := hl1 x (by simp)
          rw [heq.1] at ha
          simp [ha] at this
    · have ha' : p a = false := by simpa using ha
      rw [List.find?_cons_of_neg _ (by simp [ha'])]
      rw [find?_eq_some_split p l b]
      constructor
      · rintro ⟨l1, l2, heq, hb, hl1⟩
        refine ⟨a :: l1, l2, by simp [heq], hb, ?_⟩
        intro x hx
        rcases List.mem_cons.1 hx with hxa | hxl
        · subst hxa; exact ha'
        · exact hl1 x hxl
      · rintro ⟨l1, l2, heq, hb, hl1⟩
        cases l1 with
        | nil =>
          simp only [List.nil_append, List.cons.injEq] at heq
          rw [← heq.1, ha'] at hb
          simp at hb
        | cons x l1 =>
          simp only [List.cons_append, List.cons.injEq] at heq
          exact ⟨l1, l2, heq.2, hb, fun y hy => hl1 y (by simp [hy])⟩

theorem drainLoop_lag (n : Nat) : ∀ es1 es2 : List RecvEvent,
    drainLoop (es1 ++ .lagged n :: es2) = drainLoop (es1 ++ es2)
  | [], es2 => rfl
  | .lagged m :: es1, es2 => by
    simp only [List.cons_append, drainLoop]
    exact drainLoop_lag n es1 es2
  | .item nm b ok :: es1, es2 => by
    cases ok with
    | false => rfl
    | true => simp [drainLoop, drainLoop_lag n es1 es2]

theorem drainLoop_ok : ∀ es : List RecvEvent, appendsOk es = true →
    drainLoop es =
      ((relayedItems es).map (fun x => WriterAction.appendEntry x.1 x.2.length 0o777 x.2),
       .channelClosed)
  | [], _ => rfl
  | .lagged m :: rest, h => by
    simp only [appendsOk] at h
    simp only [drainLoop, relayedItems, List.filterMap_cons]
    exact drainLoop_ok rest h
  | .item nm b ok :: rest, h => by
    simp only [appendsOk, Bool.and_eq_true] at h
    obtain ⟨h1, h2⟩ := h
    subst h1
    simp only [drainLoop, if_pos rfl, relayedItems, List.filterMap_cons]
    rw [drainLoop_ok rest h2]
    simp [relayedItems]

theorem drainLoop_fail : ∀ es : List RecvEvent, appendsOk es = false →
    (drainLoop es).2 = .appendFailed
  | [], h => by simp [appendsOk] at h
  | .lagged m :: rest, h => by
    simp only [appendsOk] at h
    simp only [drainLoop]
    exact drainLoop_fail rest h
  | .item nm b ok :: rest, h => by
    cases ok with
    | false => rfl
    | true =>
      simp only [appendsOk, Bool.true_and] at h
      simp only [drainLoop, if_pos rfl]
      exact drainLoop_fail rest h

theorem drainLoop_actions_are_appends : ∀ es : List RecvEvent,
    ∀ a ∈ (drainLoop es).1, ∃ n b, a = .appendEntry n b.length 0o777 b
  | [] => by simp [drainLoop]
  | .lagged m :: rest => by
    simp only [drainLoop]
    exact drainLoop_actions_are_appends rest
  | .item nm b ok :: rest => by
    cases ok with
    | false => simp [drainLoop]
    | true =>
      simp only [drainLoop, if_pos rfl]
      intro a ha
      rcases List.mem_cons.1 ha with h | h
      · exact ⟨nm, b, h⟩
      · exact drainLoop_actions_are_appends rest a h

theorem appendedEntries_shutdown : appendedEntries shutdownSeq = [] := rfl

theorem chain_walk (N : Nat) : ∀ (fuel k : Nat), k < N → N - k ≤ fuel →
    (parse_chapters 1 (chainWorld N) fuel (chainUrl k)).fetches = N - k ∧
    (parse_chapters 1 (chainWorld N) fuel (chainUrl k)).handoffs.length = N - k - 1 ∧
    (parse_chapters 1 (chainWorld N) fuel (chainUrl k)).outcome = .ok
  | 0, k, hk, hf => by omega
  | fuel + 1, k, hk, hf => by
    have hname := chapterNameOf_chainUrl k
    have hfetch : (chainWorld N).fetch (chainUrl k) = some (chainPage N k) := by
      simp [chainWorld, urlIndex_chainUrl, hk]
    by_cases hlast : k + 1 < N
    · have hb : isNextChapterButton ⟨"Next Chapter ".toList, some ('/' :: aRun (k + 2))⟩ = true := by
        simp only [isNextChapterButton, decide_eq_true_eq]
        decide
      have hbtn : nextButtonHref (chainPage N k) = some ('/' :: aRun (k + 2)) := by
        rw [chainPage, if_pos hlast, nextButtonHref]
        rw [List.find?_cons_of_pos _ hb]
        rfl
      have hjoin : (chainWorld N).join (chainUrl k) ('/' :: aRun (k + 2)) = some (chainUrl (k + 1)) :=
        rfl
      obtain ⟨ih1, ih2, ih3⟩ := chain_walk N fuel (k + 1) hlast (by omega)
      simp only [parse_chapters, hname, hfetch, hbtn, hjoin]
      refine ⟨?_, ?_, ?_⟩
      · simp only [ih1]
        omega
      · simp only [List.length_cons, ih2]
        omega
      · simpa using ih3
    · have hbtn : nextButtonHref (chainPage N k) = none := by
        rw [chainPage, if_neg hlast, nextButtonHref]
        rfl
      simp only [parse_chapters, hname, hfetch, hbtn]
      refine ⟨by omega, ?_, trivial⟩
      simp only [List.length_nil]
      omega

theorem parse_chapters_receivers_invariant (w : World) : ∀ (fuel : Nat) (u : Url) (r2 : Nat),
    (parse_chapters r2 w fuel u).fetches = (parse_chapters 1 w fuel u).fetches ∧
    (parse_chapters r2 w fuel u).handoffs = (parse_chapters 1 w fuel u).handoffs ∧
    (parse_chapters r2 w fuel u).outcome = (parse_chapters 1 w fuel u).outcome
  | 0, _, _ => by simp [parse_chapters]
  | fuel + 1, u, r2 => by
    cases hn : chapterNameOf u with
    | error e => simp [parse_chapters, hn]
    | ok nm =>
      cases hfe : w.fetch u with
      | none => simp [parse_chapters, hn, hfe]
      | some pg =>
        cases hb : nextButtonHref pg with
        | none => simp [parse_chapters, hn, hfe, hb]
        | some nx =>
          cases hj : w.join u nx with
          | none => simp [parse_chapters, hn, hfe, hb, hj]
          | some u2 =>
            obtain ⟨ih1, ih2, ih3⟩ := parse_chapters_receivers_invariant w fuel u2 r2
            simp [parse_chapters, hn, hfe, hb, hj, ih1, ih2, ih3]

theorem appendedEntries_append (l1 l2 : List WriterAction) :
    appendedEntries (l1 ++ l2) = appendedEntries l1 ++ appendedEntries l2 := by
  simp [appendedEntries, List.filterMap_append]

theorem appendedEntries_map_mk (items : List (List Char × List Nat)) :
    appendedEntries (items.map fun x => WriterAction.appendEntry x.1 x.2.length 0o777 x.2) =
      items.map (fun x => (x.1, x.2.length, 0o777, x.2)) := by
  induction items with
  | nil => rfl
  | cons a t ih => simpa [appendedEntries, List.filterMap_cons] using ih

theorem archiveWriter_entries (es : List RecvEvent) (h : appendsOk es = true) :
    (archiveWriter es).2 = .ok () ∧
    appendedEntries (archiveWriter es).1 =
      (relayedItems es).map (fun x => (x.1, x.2.length, 0o777, x.2)) := by
  have hd := drainLoop_ok es h
  constructor
  · simp [archiveWriter, hd]
  · have h1 : (archiveWriter es).1 =
        (relayedItems es).map (fun x => WriterAction.appendEntry x.1 x.2.length 0o777 x.2) ++
          shutdownSeq := by
      simp [archiveWriter, hd]
    rw [h1, appendedEntries_append, appendedEntries_shutdown, List.append_nil,
      appendedEntries_map_mk]

theorem appendsOk_map_item (hs : List (List Char × List Nat)) :
    appendsOk (hs.map fun x => RecvEvent.item x.1 x.2 true) = true := by
  induction hs with
  | nil => rfl
  | cons a t ih => simpa [appendsOk] using ih

theorem relayedItems_map_item (hs : List (List Char × List Nat)) :
    relayedItems (hs.map fun x => RecvEvent.item x.1 x.2 true) = hs := by
  induction hs with
  | nil => rfl
  | cons a t ih => simpa [relayedItems, List.filterMap_cons] using ih

theorem parse_chapters_tasks_zero (w : World) : ∀ (fuel : Nat) (u : Url),
    ∀ t ∈ (parse_chapters 0 w fuel u).tasks, t = .panicked
  | 0, u => by simp [parse_chapters]
  | fuel + 1, u => by
    cases hn : chapterNameOf u with
    | error e => simp [parse_chapters, hn]
    | ok nm =>
      cases hfe : w.fetch u with
      | none => simp [parse_chapters, hn, hfe]
      | some pg =>
        cases hb : nextButtonHref pg with
        | none => simp [parse_chapters, hn, hfe, hb]
        | some nx =>
          cases hj : w.join u nx with
          | none =>
            simp [parse_chapters, hn, hfe, hb, hj, handoffTaskOutcome, broadcastSend]
          | some u2 =>
            intro t ht
            simp only [parse_chapters, hn, hfe, hb, hj] at ht
            rcases List.mem_cons.1 ht with h | h
            · simp [h, handoffTaskOutcome, broadcastSend]
            · exact parse_chapters_tasks_zero w fuel u2 t h

/-- C1 (counterexample): in a simulated chain of N = 1 pages the walker
performs 1 fetch and terminates successfully, but dispatches 0 chapter
handoffs, not 1 as the claim states: the final page's chapter is never
handed off. -/
theorem walker_chain_final_handoff_cex :
    (parse_chapters 1 (chainWorld 1) 1 (chainUrl 0)).fetches = 1 ∧
    (parse_chapters 1 (chainWorld 1) 1 (chainUrl 0)).outcome = .ok ∧
    (parse_chapters 1 (chainWorld 1) 1 (chainUrl 0)).handoffs.length ≠ 1 := by
  decide

/-- C1 (amended): for a simulated pagination chain of N pages (N at least
one, enough fuel) the walker performs exactly N fetches, dispatches
exactly N - 1 chapter handoffs (one per page that carries a next-chapter
button; the final page's chapter is not handed off), and terminates
successfully. -/
theorem walker_chain_counts (N fuel : Nat) (h1 : 1 ≤ N) (hf : N ≤ fuel) :
    (parse_chapters 1 (chainWorld N) fuel (chainUrl 0)).fetches = N ∧
    (parse_chapters 1 (chainWorld N) fuel (chainUrl 0)).handoffs.length = N - 1 ∧
    (parse_chapters 1 (chainWorld N) fuel (chainUrl 0)).outcome = .ok := by
  have h := chain_walk N fuel 0 (by omega) (by omega)
  simpa using h

/-- C1 (witness): the amended count theorem applied to a concrete chain of
three pages. -/
theorem walker_chain_counts_witness :
    (parse_chapters 1 (chainWorld 3) 3 (chainUrl 0)).fetches = 3 ∧
    (parse_chapters 1 (chainWorld 3) 3 (chainUrl 0)).handoffs.length = 3 - 1 ∧
    (parse_chapters 1 (chainWorld 3) 3 (chainUrl 0)).outcome = .ok :=
  walker_chain_counts 3 3 (by decide) (by decide)

/-- C2 (counterexample): with two configured initial chapters where the
first fails run setup, only the first run is attempted — the second
configured chapter never gets a run attempt, contrary to the claim. -/
theorem every_chapter_attempted_cex :
    (processChapters (fun _ => .ok ()) ["x".toList, "https://a/fiction/9/b".toList]).1 =
      ["x".toList] ∧
    (processChapters (fun _ => .ok ()) ["x".toList, "https://a/fiction/9/b".toList]).2 =
      .error .invalidRunTarget ∧
    "https://a/fiction/9/b".toList ∉
      (processChapters (fun _ => .ok ()) ["x".toList, "https://a/fiction/9/b".toList]).1 := by
  refine ⟨rfl, rfl, by decide⟩

/-- C2 (amended): the first failing run aborts the whole process: its
error is surfaced as the process outcome, and the subsequent configured
initial chapters are never attempted. -/
theorem first_failure_aborts_later_runs (runBody : List Char → Except RunError Unit)
    (cs1 : List (List Char)) (c : List Char) (cs2 : List (List Char)) (e : RunError)
    (hok : ∀ c2 ∈ cs1, runIteration runBody c2 = .ok ())
    (hfail : runIteration runBody c = .error e) :
    processChapters runBody (cs1 ++ c :: cs2) = (cs1 ++ [c], .error e) := by
  induction cs1 with
  | nil => simp [processChapters, hfail]
  | cons a cs1 ih =>
    have ha := hok a (by simp)
    have ih2 := ih (fun c2 hc2 => hok c2 (by simp [hc2]))
    simp only [List.cons_append, processChapters, ha, List.append_eq]
    rw [ih2]

/-- C2 (witness): the amended abort theorem applied to a concrete pair of
configured chapters whose first fails the run-target derivation. -/
theorem first_failure_aborts_later_runs_witness :
    processChapters (fun _ => .ok ()) ["x".toList, "y".toList] =
      (["x".toList], .error .invalidRunTarget) :=
  first_failure_aborts_later_runs (fun _ => .ok ()) [] "x".toList ["y".toList]
    .invalidRunTarget (by simp) rfl

/-- C3 (counterexample): when appending the very first entry fails, the
archive writer propagates the error with an empty action trace — no
finalize, flush or sync step is performed on that exit path, contrary to
the claim that the ordered shutdown happens on every exit path. -/
theorem writer_append_error_skips_shutdown_cex :
    archiveWriter [.item "c1".toList [65] false] = ([], .error .appendFailed) ∧
    WriterAction.finalizeContainer ∉ (archiveWriter [.item "c1".toList [65] false]).1 := by
  refine ⟨rfl, by decide⟩

/-- C3 (amended): on the channel-closed exit path the writer performs the
ordered shutdown — finalize container, finalize compressor, flush buffered
writer, flush file, sync file, in that exact order — but on an exit caused
by a failing append the error propagates immediately and no shutdown step
is performed. -/
theorem writer_shutdown_order_paths (es : List RecvEvent) :
    (appendsOk es = true → archiveWriter es = ((drainLoop es).1 ++ shutdownSeq, .ok ())) ∧
    (appendsOk es = false →
      (archiveWriter es).2 = .error .appendFailed ∧
      ∀ a ∈ (archiveWriter es).1, a ∉ shutdownSeq) := by
  constructor
  · intro h
    have hd := drainLoop_ok es h
    simp [archiveWriter, hd]
  · intro h
    have h2 := drainLoop_fail es h
    rcases hdl : drainLoop es with ⟨acts, ex⟩
    rw [hdl] at h2
    simp only at h2
    subst h2
    constructor
    · simp [archiveWriter, hdl]
    · intro a ha
      have hmem : a ∈ (drainLoop es).1 := by
        rw [hdl]
        simpa [archiveWriter, hdl] using ha
      obtain ⟨n, b, rfl⟩ := drainLoop_actions_are_appends es a hmem
      simp [shutdownSeq]

/-- C3 (witness): the shutdown-path theorem applied to a concrete stream
with one successful append: the trace ends with the shutdown sequence. -/
theorem writer_shutdown_order_paths_witness :
    archiveWriter [RecvEvent.item "c".toList [66] true] =
      ((drainLoop [RecvEvent.item "c".toList [66] true]).1 ++ shutdownSeq, .ok ()) :=
  (writer_shutdown_order_paths [RecvEvent.item "c".toList [66] true]).1 (by decide)

/-- C4 (counterexample): walking a two-page chain with zero active
receivers makes the single spawned handoff task panic, yet the walker
returns success — the send rejection does not surface as any error in the
run result. -/
theorem handoff_send_failure_not_fatal_cex :
    (parse_chapters 0 (chainWorld 2) 2 (chainUrl 0)).outcome = .ok ∧
    (parse_chapters 0 (chainWorld 2) 2 (chainUrl 0)).tasks = [.panicked] := by
  decide

/-- C4 (amended): a send rejected for lack of an active consumer panics
the detached handoff task but is never surfaced: the walker's fetches,
handoffs and result are independent of receiver liveness, and with zero
receivers every spawned handoff task panics silently. -/
theorem handoff_send_failure_isolated (receivers fuel : Nat) (w : World) (u : Url) :
    (parse_chapters receivers w fuel u).fetches = (parse_chapters 1 w fuel u).fetches ∧
    (parse_chapters receivers w fuel u).handoffs = (parse_chapters 1 w fuel u).handoffs ∧
    (parse_chapters receivers w fuel u).outcome = (parse_chapters 1 w fuel u).outcome ∧
    (receivers = 0 → ∀ t ∈ (parse_chapters receivers w fuel u).tasks, t = .panicked) := by
  obtain ⟨h1, h2, h3⟩ := parse_chapters_receivers_invariant w fuel u receivers
  refine ⟨h1, h2, h3, ?_⟩
  intro h0 t ht
  subst h0
  exact parse_chapters_tasks_zero w fuel u t ht

/-- C4 (witness): the isolation theorem applied to the concrete two-page
chain with zero receivers. -/
theorem handoff_send_failure_isolated_witness :
    (parse_chapters 0 (chainWorld 2) 2 (chainUrl 0)).outcome =
      (parse_chapters 1 (chainWorld 2) 2 (chainUrl 0)).outcome ∧
    ∀ t ∈ (parse_chapters 0 (chainWorld 2) 2 (chainUrl 0)).tasks, t = .panicked := by
  obtain ⟨-, -, h3, h4⟩ := handoff_send_failure_isolated 0 2 (chainWorld 2) (chainUrl 0)
  exact ⟨h3, h4 rfl⟩

/-- C5: for every ASCII initial URL decomposing as prefix, /fiction/, a
nonempty digit id, a slash and a nonempty slug of word/hyphen characters
— with the remainder not extending the slug and the pattern matching at
no earlier position, so that this occurrence is the regex's leftmost
match — the derived run target is exactly the slug; and for every ASCII
initial URL with no such decomposition anywhere, the run fails with the
invalid-run-target error and performs zero fetches. ASCII is the domain
on which the modelled character classes coincide with the regex crate's
Unicode classes. -/
theorem run_target_derivation :
    (∀ (p d s r : List Char),
        allAscii (p ++ fictionLit ++ (d ++ '/' :: (s ++ r))) = true →
        (∀ i, i < p.length →
          matchFictionHere (p.drop i ++ (fictionLit ++ (d ++ '/' :: (s ++ r)))) = none) →
        d ≠ [] → (∀ c ∈ d, isAsciiDigit c = true) →
        s ≠ [] → (∀ c ∈ s, isSlugChar c = true) →
        (∀ c, r.head? = some c → isSlugChar c = false) →
        guessFictionName (p ++ fictionLit ++ (d ++ '/' :: (s ++ r))) = some s) ∧
    (∀ (u : List Char) (w : World) (receivers fuel : Nat),
        allAscii u = true → (∀ s, ¬ FictionDecomp u s) →
        runOne w receivers fuel u = (.error .invalidRunTarget, 0)) := by
  constructor
  · intro p d s r _ hleft hd hdall hs hsall hr
    have hm := matchFictionHere_target d s r hd hdall hs hsall hr
    have hlit : fictionLit ++ (d ++ '/' :: (s ++ r)) =
        '/' :: ("fiction/".toList ++ (d ++ '/' :: (s ++ r))) := by
      simp [fictionLit]
    rw [List.append_assoc, guessFictionName_skip p _ hleft]
    rw [hlit] at hm ⊢
    rw [guessFictionName, hm]
  · intro u w receivers fuel _ hno
    have hcap : guessFictionName u = none := by
      cases hg : guessFictionName u with
      | none => rfl
      | some s => exact absurd (guessFictionName_decomp hg) (hno s)
    simp [runOne, hcap]

/-- C5 (witness): the derivation theorem applied to a concrete chapter URL
whose host contains the letter f several times yet holds no earlier match
of the pattern, and the fail-fast branch applied to a short URL that
cannot contain the pattern. -/
theorem run_target_derivation_witness :
    guessFictionName ("https://www.fanfiction.net".toList ++ fictionLit ++
        ("21220".toList ++ '/' ::
          ("mother-of-learning".toList ++ "/chapter/301778/1".toList))) =
      some "mother-of-learning".toList ∧
    runOne (chainWorld 1) 1 1 "hello".toList = (.error .invalidRunTarget, 0) := by
  constructor
  · exact run_target_derivation.1 "https://www.fanfiction.net".toList "21220".toList
      "mother-of-learning".toList "/chapter/301778/1".toList
      (by decide) (by decide) (by decide) (by decide) (by decide) (by decide)
      (by intro c hc; simp at hc; subst hc; decide)
  · refine run_target_derivation.2 "hello".toList (chainWorld 1) 1 1 (by decide) ?_
    rintro s ⟨p, d, r, heq, hd, -, hs, -⟩
    have hlen := congrArg List.length heq
    have hdl : 1 ≤ d.length := by
      cases d with
      | nil => exact absurd rfl hd
      | cons a l => simp
    have hsl : 1 ≤ s.length := by
      cases s with
      | nil => exact absurd rfl hs
      | cons a l => simp
    simp [fictionLit] at hlen
    omega

/-- C6: the walker selects exactly the first candidate button whose
lowercased and trimmed text equals the next-chapter literal; the text
Next Chapter with trailing blank matches, while the superstring
go to next chapter does not. -/
theorem next_button_exact_match :
    (∀ (pg : Page) (b : Button),
        pg.buttons.find? isNextChapterButton = some b ↔
          ∃ l1 l2, pg.buttons = l1 ++ b :: l2 ∧ isNextChapterButton b = true ∧
            ∀ x ∈ l1, isNextChapterButton x = false) ∧
    isNextChapterButton ⟨"Next Chapter ".toList, none⟩ = true ∧
    isNextChapterButton ⟨"go to next chapter".toList, none⟩ = false := by
  refine ⟨fun pg b => find?_eq_some_split isNextChapterButton pg.buttons b, by decide, by decide⟩

/-- C6 (witness): the characterization applied to a concrete candidate
list whose first matching button is in second position. -/
theorem next_button_exact_match_witness :
    ∃ l1 l2,
      [Button.mk "go to next chapter".toList none, Button.mk "Next Chapter ".toList none,
        Button.mk "next chapter".toList none] =
        l1 ++ Button.mk "Next Chapter ".toList none :: l2 ∧
      isNextChapterButton (Button.mk "Next Chapter ".toList none) = true ∧
      ∀ x ∈ l1, isNextChapterButton x = false :=
  (next_button_exact_match.1
    ⟨[], [Button.mk "go to next chapter".toList none, Button.mk "Next Chapter ".toList none,
      Button.mk "next chapter".toList none]⟩
    (Button.mk "Next Chapter ".toList none)).mp (by decide)

/-- C7: a lag notification anywhere in the relay event stream leaves the
writer's behaviour unchanged — lag never surfaces as an error — and when
the channel closes the drain loop exits normally: the writer returns Ok
whenever every append succeeds. -/
theorem writer_lag_nonfatal_close_normal :
    (∀ (es1 : List RecvEvent) (n : Nat) (es2 : List RecvEvent),
        archiveWriter (es1 ++ .lagged n :: es2) = archiveWriter (es1 ++ es2)) ∧
    (∀ es : List RecvEvent, appendsOk es = true → (archiveWriter es).2 = .ok ()) := by
  constructor
  · intro es1 n es2
    simp [archiveWriter, drainLoop_lag n es1 es2]
  · intro es h
    simp [archiveWriter, drainLoop_ok es h]

/-- C7 (witness): lag transparency and normal close applied to a concrete
one-item stream preceded by a lag notification. -/
theorem writer_lag_nonfatal_close_normal_witness :
    archiveWriter [RecvEvent.lagged 5, RecvEvent.item "c".toList [7] true] =
      archiveWriter [RecvEvent.item "c".toList [7] true] ∧
    (archiveWriter [RecvEvent.item "c".toList [7] true]).2 = .ok () :=
  ⟨writer_lag_nonfatal_close_normal.1 [] 5 [RecvEvent.item "c".toList [7] true],
   writer_lag_nonfatal_close_normal.2 [RecvEvent.item "c".toList [7] true] (by decide)⟩

/-- C8: the UTF-8 bytes of a page's contents equal the UTF-8 encodings of
its text blocks in document order joined by the encoded blank line, and
every chapter handoff of the walker carries exactly the UTF-8 encoding of
the fetched page's contents. -/
theorem chapter_content_utf8_join :
    (∀ pg : Page, utf8Encode (pageContents pg) =
        joinSep (utf8Encode blankLine)
          (pg.paragraphs.map (fun p => utf8Encode (paragraphText p)))) ∧
    (∀ (receivers : Nat) (w : World) (fuel : Nat) (url : Url) (pg : Page)
        (nm : List Char) (bytes : List Nat),
        w.fetch url = some pg →
        (parse_chapters receivers w (fuel + 1) url).handoffs.head? = some (nm, bytes) →
        bytes = utf8Encode (pageContents pg)) := by
  constructor
  · intro pg
    rw [pageContents, utf8Encode_joinSep, List.map_map]
    rfl
  · intro receivers w fuel url pg nm bytes hfe hh
    cases hn : chapterNameOf url with
    | error e => simp [parse_chapters, hn] at hh
    | ok cn =>
      cases hb : nextButtonHref pg with
      | none => simp [parse_chapters, hn, hfe, hb] at hh
      | some nx =>
        cases hj : w.join url nx with
        | none =>
          simp [parse_chapters, hn, hfe, hb, hj] at hh
          exact hh.2.symm
        | some u2 =>
          simp [parse_chapters, hn, hfe, hb, hj] at hh
          exact hh.2.symm

/-- C8 (witness): the handoff byte equation applied to the concrete chain
world, whose first page has no paragraphs. -/
theorem chapter_content_utf8_join_witness :
    ([] : List Nat) = utf8Encode (pageContents (chainPage 2 0)) :=
  chapter_content_utf8_join.2 1 (chainWorld 2) 1 (chainUrl 0) (chainPage 2 0)
    (chapterFileName (aRun 1)) [] rfl (by decide)

/-- C9: for every stream the writer consumes without append failure, the
run succeeds and the appended entries are exactly the consumed chapters in
order, each with its chapter name, declared size equal to its content byte
length and the fixed mode 0o777; stripping headers therefore recovers
exactly the handed-off name-bytes pairs. -/
theorem archive_entry_fields_roundtrip :
    (∀ es : List RecvEvent, appendsOk es = true →
        (archiveWriter es).2 = .ok () ∧
        appendedEntries (archiveWriter es).1 =
          (relayedItems es).map (fun x => (x.1, x.2.length, 0o777, x.2))) ∧
    (∀ hs : List (List Char × List Nat),
        (appendedEntries
            (archiveWriter (hs.map fun x => RecvEvent.item x.1 x.2 true)).1).map
          (fun e => (e.1, e.2.2.2)) = hs) := by
  constructor
  · exact archiveWriter_entries
  · intro hs
    have h2 := (archiveWriter_entries _ (appendsOk_map_item hs)).2
    rw [h2, relayedItems_map_item, List.map_map]
    have hcomp : ((fun e : List Char × Nat × Nat × List Nat => (e.1, e.2.2.2)) ∘
        fun x : List Char × List Nat => (x.1, x.2.length, 0o777, x.2)) =
          fun x : List Char × List Nat => (x.1, x.2) := rfl
    rw [hcomp]
    simp

/-- C9 (witness): entry fields and round-trip applied to a concrete
one-chapter stream. -/
theorem archive_entry_fields_roundtrip_witness :
    (archiveWriter [RecvEvent.item "c".toList [9, 10] true]).2 = .ok () ∧
    appendedEntries (archiveWriter [RecvEvent.item "c".toList [9, 10] true]).1 =
      (relayedItems [RecvEvent.item "c".toList [9, 10] true]).map
        (fun x => (x.1, x.2.length, 0o777, x.2)) :=
  archive_entry_fields_roundtrip.1 [RecvEvent.item "c".toList [9, 10] true] (by decide)

/-- C10: for every http or https URL (which the url crate never marks
cannot-be-a-base) the chapter-name derivation succeeds, so the
missing-chapter-name branch is unreachable; a path ending in a slash
yields the empty final segment and hence the file name .txt. -/
theorem http_url_last_segment_total (u : Url)
    (_hscheme : u.scheme = "http".toList ∨ u.scheme = "https".toList)
    (hbase : u.cannotBeABase = false) :
    (∃ n, chapterNameOf u = .ok n) ∧
    (∀ p, u.path = p ++ ['/'] →
      chapterNameOf u = .ok [] ∧ chapterFileName [] = ".txt".toList) := by
  constructor
  · have hne := splitSegs_ne_nil (u.path.drop 1)
    obtain ⟨n, hn⟩ := Option.isSome_iff_exists.1 (List.getLast?_isSome.2 hne)
    have hn2 : (splitSegs u.path.tail).getLast? = some n := by
      simpa [List.drop_one] using hn
    exact ⟨n, by simp [chapterNameOf, pathSegments, hbase, hn2]⟩
  · intro p hp
    refine ⟨?_, rfl⟩
    have hdrop : u.path.drop 1 = p.drop 1 ++ ['/'] ∨ u.path.drop 1 = [] := by
      cases p with
      | nil => right; simp [hp]
      | cons c cs => left; simp [hp]
    rcases hdrop with h | h
    · simp [chapterNameOf, pathSegments, hbase, h, splitSegs_concat_slash,
        List.getLast?_concat]
    · simp [chapterNameOf, pathSegments, hbase, h, splitSegs]

/-- C10 (witness): the totality theorem applied to a concrete https URL
whose path ends in a slash. -/
theorem http_url_last_segment_total_witness :
    (∃ n, chapterNameOf ⟨"https".toList, "/fiction/1/slug/".toList, false⟩ = .ok n) ∧
    chapterNameOf ⟨"https".toList, "/fiction/1/slug/".toList, false⟩ = .ok [] := by
  have h := http_url_last_segment_total ⟨"https".toList, "/fiction/1/slug/".toList, false⟩
    (Or.inr rfl) rfl
  exact ⟨h.1, (h.2 "/fiction/1/slug".toList (by decide)).1⟩
